import Mathlib

/-!
Verification of the MPS trace engine (src/src/trace.c) and the AMC
mostly-copying pool (src/code/poolamc.c) against their specification.

The development shallowly embeds the data model and the operations the
claims are about.  Machine-word bitsets (RefSet, TraceSet) are modelled
as Nat used bitwise; per-segment state, the scan state, the AMC pool
state and the trace state machine are modelled as Lean structures, and
each C function is translated into a total (or Option-returning, where
the C code can fail an assertion or return an error code) Lean function
following the branch structure of its source.
-/

set_option maxRecDepth 4000

/-- Machine word width of the modelled platform (MPS_WORD_WIDTH). -/
def wordWidth : Nat := 64

/-- Modelled from the spec: RefSet is a word-sized bitset over zones
(mpm.h bitset macros are not under src/).  Bit i marks zone i. -/
abbrev RefSet := Nat

/-- Modelled from the spec: the empty reference set. -/
def RefSetEMPTY : RefSet := 0

/-- Modelled from the spec: the universal reference set, an all-ones word. -/
def RefSetUNIV : RefSet := 2 ^ wordWidth - 1

/-- Modelled from the spec: bitset union of two reference sets. -/
def RefSetUnion (a b : RefSet) : RefSet := a ||| b

/-- Modelled from the spec: bitset intersection of two reference sets. -/
def RefSetInter (a b : RefSet) : RefSet := a &&& b

/-- Modelled from the spec: bitset difference (a minus b). -/
def RefSetDiff (a b : RefSet) : RefSet := Nat.ldiff a b

/-- Modelled from the spec: does a contain b as a subset. -/
def RefSetSuper (a b : RefSet) : Bool := decide (RefSetInter a b = b)

/-- Modelled from the spec: TraceSet is a small bitset of trace ids. -/
abbrev TraceSet := Nat

/-- Modelled from the spec: a trace id is a small natural number. -/
abbrev TraceId := Nat

/-- Modelled from the spec: TraceSetEMPTY is the empty bitset. -/
def TraceSetEMPTY : TraceSet := 0

/-- Modelled from the spec: membership of a trace id in a trace set. -/
def TraceSetIsMember (ts : TraceSet) (ti : TraceId) : Bool := ts.testBit ti

/-- Modelled from the spec: the singleton trace set. -/
def TraceSetSingle (ti : TraceId) : TraceSet := 1 <<< ti

/-- Modelled from the spec: add a trace id to a trace set. -/
def TraceSetAdd (ts : TraceSet) (ti : TraceId) : TraceSet := ts ||| (1 <<< ti)

/-- Modelled from the spec: delete a trace id from a trace set. -/
def TraceSetDel (ts : TraceSet) (ti : TraceId) : TraceSet :=
  Nat.ldiff ts (1 <<< ti)

/-- Modelled from the spec: union of two trace sets. -/
def TraceSetUnion (a b : TraceSet) : TraceSet := a ||| b

/-- Modelled from the spec: intersection of two trace sets. -/
def TraceSetInter (a b : TraceSet) : TraceSet := a &&& b

/-- Modelled from the spec: is a a subset of b. -/
def TraceSetSub (a b : TraceSet) : Bool := decide (TraceSetInter a b = a)

/-- Rank of a reference (mpmtypes.h): ambiguous, exact, final or weak. -/
inductive Rank where
  | AMBIG
  | EXACT
  | FINAL
  | WEAK
deriving DecidableEq, Repr

/-- Result codes of the MPS (the subset the modelled code uses). -/
inductive Res where
  | OK
  | FAIL
  | MEMORY
  | COMMIT_LIMIT
  | LIMIT
deriving DecidableEq, Repr

/-- ResIsAllocFailure from the source: the error codes that report
allocation exhaustion. -/
def ResIsAllocFailure (r : Res) : Bool :=
  r = Res.MEMORY ∨ r = Res.COMMIT_LIMIT

/-- States of the trace state machine (trace.c). -/
inductive TraceState where
  | INIT
  | UNFLIPPED
  | FLIPPED
  | RECLAIM
  | FINISHED
deriving DecidableEq, Repr

/-- Scan state (the fields of ScanStateStruct that the modelled
functions read or write).  Counters that are pure statistics are left
out except where a claim observes them. -/
structure ScanStateM where
  rank : Rank
  traces : TraceSet
  white : RefSet
  unfixedSummary : RefSet
  fixedSummary : RefSet
  wasMarked : Bool
deriving DecidableEq, Repr

/-- ScanStateSummary (trace.c): the summary of the scanned references is
the summary of the unfixed references, minus the white set, plus the
summary of the fixed references. -/
def ScanStateSummary (ss : ScanStateM) : RefSet :=
  RefSetUnion ss.fixedSummary (RefSetDiff ss.unfixedSummary ss.white)

/-- ScanStateSetSummary (trace.c): sets unfixedSummary and fixedSummary
such that ScanStateSummary will return the summary passed. -/
def ScanStateSetSummary (ss : ScanStateM) (summary : RefSet) : ScanStateM :=
  { ss with unfixedSummary := RefSetEMPTY, fixedSummary := summary }

/-- Modelled from the spec: a nailboard (nailboard.c is not under src/)
is a per-segment mark table keyed by address, with a flag recording
whether new nails were added since the last clear.  The mark table is
modelled as the list of marked addresses. -/
structure NailboardM where
  marks : List Nat
  newNails : Bool
deriving DecidableEq, Repr

/-- Modelled from the spec: NailboardGet tests whether an address is
nailed. -/
def NailboardGet (b : NailboardM) (a : Nat) : Bool := b.marks.contains a

/-- Modelled from the spec: NailboardSet marks an address, returning
whether it was already marked, and records a new nail otherwise. -/
def NailboardSet (b : NailboardM) (a : Nat) : Bool × NailboardM :=
  let was := NailboardGet b a
  (was, { marks := a :: b.marks, newNails := b.newNails || !was })

/-- Modelled from the spec: NailboardSetRange marks every address of
the half-open range. -/
def NailboardSetRange (b : NailboardM) (lo hi : Nat) : NailboardM :=
  { b with marks := List.range' lo (hi - lo) ++ b.marks }

/-- Modelled from the spec: NailboardIsResRange tests that no address of
the half-open range is marked. -/
def NailboardIsResRange (b : NailboardM) (lo hi : Nat) : Bool :=
  b.marks.all fun a => decide (a < lo ∨ hi ≤ a)

/-- Modelled from the spec: NailboardIsSetRange tests that every address
of the half-open range is marked. -/
def NailboardIsSetRange (b : NailboardM) (lo hi : Nat) : Bool :=
  (List.range' lo (hi - lo)).all fun a => NailboardGet b a

/-- Object format callbacks, supplied by the client (spec section 6).
Addresses are client addresses; headerSize separates a client address
from the base of its memory block. -/
structure FormatM where
  headerSize : Nat
  skip : Nat → Nat
  isMoved : Nat → Option Nat

/-- Modelled from the spec: the fields of an attached buffer
(allocation point) that the modelled AMC code reads (buffer.c is not
under src/).  scanLimit is BufferScanLimit, the limit up to which the
contents of the buffer are formatted objects. -/
structure BufM where
  base : Nat
  scanLimit : Nat
  limit : Nat
  isMutator : Bool
deriving DecidableEq, Repr

/-- An AMC segment: the generic segment fields (colour sets, rank set,
summary) together with the amcSegStruct fields (generation, nailboard,
forwarded counts, accounting flags).  refset caches RefSetOfSeg, the
set of zones the address range of the segment meets; attrGC and
attrMovingGC record the pool class attributes of the owning pool. -/
structure SegM where
  base : Nat
  size : Nat
  white : TraceSet
  grey : TraceSet
  nailed : TraceSet
  rankSet : Nat
  summary : RefSet
  refset : RefSet
  board : Option NailboardM
  buffer : Option BufM
  old : Bool
  deferred : Bool
  accountedAsBuffered : Bool
  forwarded : List Nat
  genIdx : Nat
  attrGC : Bool
  attrMovingGC : Bool
deriving DecidableEq, Repr

/-- SegLimit of a segment. -/
def SegLimit (s : SegM) : Nat := s.base + s.size

/-- Modelled from the spec: SegBufferScanLimit is the buffer scan limit
when a buffer is attached, and the segment limit otherwise. -/
def SegBufferScanLimit (s : SegM) : Nat :=
  match s.buffer with
  | some b => b.scanLimit
  | none => SegLimit s

/-- amcSegHasNailboard (poolamc.c). -/
def amcSegHasNailboard (s : SegM) : Bool := s.board.isSome

/-- Ramp mode of the AMC pool (poolamc.c RAMP_RELATION). -/
inductive RampMode where
  | OUTSIDE
  | BEGIN
  | RAMPING
  | FINISH
  | COLLECTING
deriving DecidableEq, Repr

/-- The pinning policy of the pool: amcPinnedInterior when interior
pointers pin, amcPinnedBase otherwise (poolamc.c amcPinnedFunction). -/
inductive PinPolicy where
  | interior
  | basePin
deriving DecidableEq, Repr

/-- amcPinned dispatches the pinned test through the pool policy:
amcPinnedInterior reports a block pinned when any address of the
header-adjusted block range is nailed; amcPinnedBase only asks the
board at the block base (poolamc.c). -/
def amcPinned (pol : PinPolicy) (headerSize : Nat) (board : NailboardM)
    (base limit : Nat) : Bool :=
  match pol with
  | .interior => !(NailboardIsResRange board (base - headerSize) (limit - headerSize))
  | .basePin => NailboardGet board base

/-- The AMC pool fields the modelled functions use (AMCStruct).
forwardGen records, for every generation index, the generation its
forwarding buffer currently allocates in (amcBufSetGen state). -/
structure AMCM where
  rampMode : RampMode
  rampCount : Nat
  rampGenIdx : Nat
  afterRampGenIdx : Nat
  forwardGen : List Nat
  pinPolicy : PinPolicy
  extendBy : Nat
  largeSize : Nat
deriving DecidableEq, Repr

/-- The trace fields the modelled trace.c functions use
(TraceStruct). -/
structure TraceM where
  ti : TraceId
  state : TraceState
  emergency : Bool
  white : RefSet
  mayMove : RefSet
  foundation : Nat
  rate : Nat
  segScanSize : Nat
deriving DecidableEq, Repr

/-- TraceWorkClock (trace.c): segment scanning work is the only work
that is regulated. -/
def TraceWorkClock (tr : TraceM) : Nat := tr.segScanSize

/-- The state TracePoll and TraceStep act on: the trace together with
the work list of segments that are grey for it (each entry is the
scanning work in bytes that the segment contributes to the work clock;
a segment blackened without scanning contributes 0), and a flag saying
whether forwarding allocation can currently succeed.  Scanning a grey
segment fails exactly when the non-emergency fix path needs to
allocate and cannot (amcSegFix reserve failure); the emergency fix
path never allocates (amcSegFixEmergency). -/
structure PollSt where
  tr : TraceM
  greys : List Nat
  allocOK : Bool
deriving DecidableEq, Repr

/-- TraceRun (trace.c): find a grey segment and scan it; on a scan
failure the greyness is not removed and the error is returned; if no
grey segment remains, the trace advances to RECLAIM.  Work folded into
the work clock on a failing scan is modelled as 0. -/
def traceRunStep (t : PollSt) : Res × PollSt :=
  match t.greys with
  | [] => (.OK, { t with tr := { t.tr with state := .RECLAIM } })
  | g :: rest =>
      if t.tr.emergency || t.allocOK then
        (.OK, { t with greys := rest,
                       tr := { t.tr with segScanSize := t.tr.segScanSize + g } })
      else
        (.COMMIT_LIMIT, t)

/-- TraceStep (trace.c): progresses a trace by some small amount.  The
states INIT and UNFLIPPED, and a finished trace, are NOTREACHED in the
source; the model returns FAIL there and leaves the state alone. -/
def TraceStep (t : PollSt) : Res × PollSt :=
  match t.tr.state with
  | .FLIPPED => traceRunStep t
  | .RECLAIM => (.OK, { t with tr := { t.tr with state := .FINISHED } })
  | _ => (.FAIL, t)

/-- Termination measure for driving the trace state machine: scanning
strictly shortens the grey list, and each of FLIPPED to RECLAIM and
RECLAIM to FINISHED is one further step. -/
def pollMeasure (t : PollSt) : Nat :=
  match t.tr.state with
  | .FLIPPED => 2 + 2 * t.greys.length
  | .RECLAIM => 1
  | _ => 0

/-- The loop of TraceExpedite (trace.c): step while the trace is not
FINISHED.  The loop terminates because each emergency step decreases
pollMeasure; the fuel argument carries that bound explicitly. -/
def traceStepLoop : Nat → PollSt → PollSt
  | 0, t => t
  | n + 1, t =>
      if t.tr.state = .FINISHED then t
      else traceStepLoop n (TraceStep t).2

/-- TraceExpedite (trace.c): signals an emergency on the trace and
moves it to the FINISHED state. -/
def TraceExpedite (t : PollSt) : PollSt :=
  traceStepLoop (pollMeasure t) { t with tr := { t.tr with emergency := true } }

/-- The do-while loop of TracePoll (trace.c): step; on an error call
TraceExpedite; otherwise continue while the trace is not FINISHED and
the work clock is below pollEnd. -/
def tracePollLoop : Nat → Nat → PollSt → PollSt
  | 0, _, t => t
  | n + 1, pollEnd, t =>
      if (TraceStep t).1 ≠ .OK then TraceExpedite (TraceStep t).2
      else if (TraceStep t).2.tr.state ≠ .FINISHED
          ∧ TraceWorkClock (TraceStep t).2.tr < pollEnd then
        tracePollLoop n pollEnd (TraceStep t).2
      else (TraceStep t).2

/-- TracePoll (trace.c): progresses a trace, without returning errors,
until it is FINISHED or the work clock has advanced by the trace
rate. -/
def TracePoll (t : PollSt) : PollSt :=
  tracePollLoop (pollMeasure t) (TraceWorkClock t.tr + t.tr.rate) t

/-- The tail of amcSegFixInPlace (poolamc.c): nail the segment for the
scanned traces and, unless the segment holds no references (AMCZ),
also grey it for them. -/
def amcSegNailAndGrey (seg : SegM) (ss : ScanStateM) : SegM :=
  let seg1 := { seg with nailed := TraceSetUnion seg.nailed ss.traces }
  if seg1.rankSet ≠ 0 then
    { seg1 with grey := TraceSetUnion seg1.grey ss.traces }
  else seg1

/-- amcSegFixInPlace (poolamc.c): fix a reference without moving the
object.  With a nailboard the nail is recorded there; without one the
whole segment is nailed.  The reference slot is never changed. -/
def amcSegFixInPlace (seg : SegM) (ss : ScanStateM) (refv : Nat) : SegM :=
  match seg.board with
  | some board =>
      let sw := NailboardSet board refv
      let seg1 := { seg with board := some sw.2 }
      if TraceSetSub ss.traces seg.nailed ∧ sw.1 then seg1
      else amcSegNailAndGrey seg1 ss
  | none =>
      if TraceSetSub ss.traces seg.nailed then seg
      else amcSegNailAndGrey seg ss

/-- The forwarding buffer of a generation, as amcSegFix uses it: a bump
allocator (successful reserve bumps allocP) whose attached destination
segment has the recorded greyness, summary and rank set.  A reserve
that does not fit is an allocation failure (the refill path is
exhausted). -/
structure FwdBufM where
  allocP : Nat
  limit : Nat
  grey : TraceSet
  summary : RefSet
  rankSet : Nat
deriving DecidableEq, Repr

/-- The nailed-object test of amcSegFix (poolamc.c): an unforwarded
object in a nailed segment is preserved in place unless the segment
has a nailboard and the board does not pin the object. -/
def amcSegPinnedHold (amc : AMCM) (fmt : FormatM) (seg : SegM)
    (refv clientQ : Nat) : Bool :=
  match seg.board with
  | some board => amcPinned amc.pinPolicy fmt.headerSize board refv clientQ
  | none => true

/-- Everything amcSegFix can observably do: the result code, the value
left in the fixed slot, the updated segment, scan state and forwarding
buffer, the number of bytes copied by AddrCopy, the number of reserve
operations made on the forwarding buffer, and the broken heart
installed by the format move method, if any. -/
structure FixOut where
  res : Res
  slot : Nat
  seg : SegM
  ss : ScanStateM
  buf : FwdBufM
  copied : Nat
  reserved : Nat
  movedTo : Option (Nat × Nat)
deriving DecidableEq, Repr

/-- Bump the per-trace forwarded byte counts of a segment for every
trace of a trace set (poolamc.c TRACE_SET_ITER in amcSegFix). -/
def bumpForwarded (fwd : List Nat) (traces : TraceSet) (len : Nat) : List Nat :=
  (List.range fwd.length).map fun i =>
    if TraceSetIsMember traces i then fwd.getD i 0 + len else fwd.getD i 0

/-- amcSegFix (poolamc.c): fix a reference to the segment.  An
ambiguous reference nails in place (creating a nailboard for a segment
not nailed before, which can fail for lack of memory).  Otherwise a
forwarded object is snapped out; a nailed and pinned object is
preserved in place; a weak reference to an unpreserved object is
splatted; and any other object is copied into the forwarding buffer of
the generation of the segment and a broken heart installed.  The
source retries the reserve and commit pair until the commit succeeds;
a forwarding buffer is never tripped by a flip while the collector
holds the arena lock, so the model commits on the first pass. -/
def amcSegFix (amc : AMCM) (fmt : FormatM) (canAllocBoard : Bool)
    (seg : SegM) (buf : FwdBufM) (ss : ScanStateM) (refv : Nat) : FixOut :=
  if ss.rank = .AMBIG then
    if seg.nailed = 0 then
      if !canAllocBoard then
        { res := .MEMORY, slot := refv, seg := seg, ss := ss, buf := buf,
          copied := 0, reserved := 0, movedTo := none }
      else
        let seg1 := { seg with board := some ⟨[], false⟩,
                               nailed := TraceSetUnion seg.nailed ss.traces }
        { res := .OK, slot := refv, seg := amcSegFixInPlace seg1 ss refv,
          ss := ss, buf := buf, copied := 0, reserved := 0, movedTo := none }
    else
      { res := .OK, slot := refv, seg := amcSegFixInPlace seg ss refv,
        ss := ss, buf := buf, copied := 0, reserved := 0, movedTo := none }
  else
    match fmt.isMoved refv with
    | some newRef =>
        { res := .OK, slot := newRef, seg := seg, ss := ss, buf := buf,
          copied := 0, reserved := 0, movedTo := none }
    | none =>
        let clientQ := fmt.skip refv
        if seg.nailed ≠ 0 ∧ amcSegPinnedHold amc fmt seg refv clientQ then
          let seg1 :=
            if ¬ TraceSetSub ss.traces seg.nailed then
              let s1 :=
                if seg.rankSet ≠ 0 then
                  { seg with grey := TraceSetUnion seg.grey ss.traces }
                else seg
              { s1 with nailed := TraceSetUnion s1.nailed ss.traces }
            else seg
          { res := .OK, slot := refv, seg := seg1, ss := ss, buf := buf,
            copied := 0, reserved := 0, movedTo := none }
        else if ss.rank = .WEAK then
          { res := .OK, slot := 0, seg := seg, ss := ss, buf := buf,
            copied := 0, reserved := 0, movedTo := none }
        else
          let ss1 := { ss with wasMarked := false }
          let len := clientQ - refv
          if buf.allocP + len ≤ buf.limit then
            let newBase := buf.allocP
            let newRef := newBase + fmt.headerSize
            let grey :=
              if seg.rankSet ≠ 0 then TraceSetUnion seg.grey ss.traces
              else seg.grey
            let buf1 :=
              { buf with
                  allocP := buf.allocP + len,
                  grey := TraceSetUnion buf.grey grey,
                  summary :=
                    if seg.rankSet ≠ 0 then RefSetUnion buf.summary seg.summary
                    else buf.summary }
            let seg1 := { seg with forwarded := bumpForwarded seg.forwarded ss.traces len }
            { res := .OK, slot := newRef, seg := seg1, ss := ss1, buf := buf1,
              copied := len, reserved := 1, movedTo := some (refv, newRef) }
          else
            { res := .COMMIT_LIMIT, slot := refv, seg := seg, ss := ss1,
              buf := buf, copied := 0, reserved := 1, movedTo := none }

/-- The observable outcome of amcSegFixEmergency: result code, slot
value and updated segment. -/
structure FixEmergencyOut where
  res : Res
  slot : Nat
  seg : SegM
deriving DecidableEq, Repr

/-- amcSegFixEmergency (poolamc.c): fix a reference without
allocating.  Ambiguous references are nailed in place; a forwarded
object is snapped out; everything else is nailed in place. -/
def amcSegFixEmergency (fmt : FormatM) (seg : SegM) (ss : ScanStateM)
    (refv : Nat) : FixEmergencyOut :=
  if ss.rank = .AMBIG then
    { res := .OK, slot := refv, seg := amcSegFixInPlace seg ss refv }
  else
    match fmt.isMoved refv with
    | some newRef => { res := .OK, slot := newRef, seg := seg }
    | none => { res := .OK, slot := refv, seg := amcSegFixInPlace seg ss refv }

/-- What amcSegWhiten observably does: the result code, the updated
segment and pool, whether the segment was condemned (GenDescCondemned
called) and the size it reported condemned. -/
structure WhitenOut where
  res : Res
  seg : SegM
  amc : AMCM
  didCondemn : Bool
  condemned : Nat
deriving DecidableEq, Repr

/-- The ramp transition of amcSegWhiten (poolamc.c): when the ramp
generation is condemned, mode BEGIN advances to RAMPING with the
forwarding buffer retargeted to the ramp generation itself, and mode
FINISH advances to COLLECTING with the forwarding buffer retargeted to
the after-ramp generation. -/
def amcRampWhitened (amc : AMCM) (genIdx : Nat) : AMCM :=
  if amc.rampMode = .BEGIN ∧ genIdx = amc.rampGenIdx then
    { amc with rampMode := .RAMPING,
               forwardGen := amc.forwardGen.set genIdx genIdx }
  else if amc.rampMode = .FINISH ∧ genIdx = amc.rampGenIdx then
    { amc with rampMode := .COLLECTING,
               forwardGen := amc.forwardGen.set genIdx amc.afterRampGenIdx }
  else amc

/-- amcSegWhiten (poolamc.c): condemn the segment for the trace.  A
forwarding buffer is detached first.  A mutator buffer that spans the
whole used portion of the segment prevents condemnation, as does the
need for a nailboard that cannot be obtained (the segment is nailed
without a board, or the nailboard allocation fails); in those cases
the function returns OK without whitening.  Otherwise the unused tail
of a mutator buffer is nailed, the buffer base is moved up to the scan
limit and the buffer span is subtracted from the condemned size; the
segment becomes old, its forwarded count for the trace is zeroed, the
trace is added to its white set, and the ramp state machine advances
(BEGIN to RAMPING, FINISH to COLLECTING, retargeting the forwarding
buffer of the ramp generation).  Pool generation accounting
(PoolGenAccountForAge and the buffer detach accounting) only moves
sizes between counters not otherwise modelled. -/
def amcSegWhiten (amc : AMCM) (canAllocBoard : Bool) (seg : SegM)
    (ti : TraceId) : WhitenOut :=
  let skipOut : WhitenOut :=
    { res := .OK, seg := seg, amc := amc, didCondemn := false, condemned := 0 }
  let afterBuffer : Option (SegM × Nat) :=
    match seg.buffer with
    | none => some (seg, 0)
    | some buffer =>
        if !buffer.isMutator then
          some ({ seg with buffer := none, accountedAsBuffered := false }, 0)
        else if buffer.scanLimit = seg.base then
          none
        else
          let bsl := buffer.scanLimit
          let boarded : Option SegM :=
            match seg.board with
            | none =>
                if seg.nailed = 0 then
                  if !canAllocBoard then none
                  else
                    let board0 : NailboardM := ⟨[], false⟩
                    let board1 :=
                      if bsl ≠ buffer.limit then
                        NailboardSetRange board0 bsl buffer.limit
                      else board0
                    some { seg with board := some board1,
                                    nailed := TraceSetSingle ti }
                else none
            | some _ =>
                some { seg with nailed := TraceSetAdd seg.nailed ti }
          match boarded with
          | none => none
          | some seg1 =>
              some ({ seg1 with buffer := some { buffer with base := bsl } },
                    buffer.limit - bsl)
  match afterBuffer with
  | none => skipOut
  | some (seg1, notCondemned) =>
      let seg2 :=
        if ¬ seg1.old then
          { seg1 with old := true, accountedAsBuffered := false }
        else seg1
      let seg3 := { seg2 with forwarded := seg2.forwarded.set ti 0,
                              white := TraceSetAdd seg2.white ti }
      { res := .OK, seg := seg3, amc := amcRampWhitened amc seg3.genIdx,
        didCondemn := true, condemned := seg3.size - notCondemned }

/-- TraceAddWhite (trace.c): give the pool the opportunity to turn the
segment white, and if it did, add the zones of the segment to the
white approximation of the trace (and to mayMove for a moving pool).
The source asserts that the segment is not already white for the
trace; a None result models that assertion failing. -/
def TraceAddWhite (amc : AMCM) (canAllocBoard : Bool) (tr : TraceM)
    (seg : SegM) : Option (Res × TraceM × SegM × AMCM) :=
  if TraceSetIsMember seg.white tr.ti then none
  else
    let w := amcSegWhiten amc canAllocBoard seg tr.ti
    if w.res ≠ .OK then some (w.res, tr, seg, amc)
    else
      let tr1 :=
        if TraceSetIsMember w.seg.white tr.ti then
          let trw := { tr with white := RefSetUnion tr.white seg.refset }
          if seg.attrMovingGC then
            { trw with mayMove := RefSetUnion trw.mayMove seg.refset }
          else trw
        else tr
      some (.OK, tr1, w.seg, w.amc)

/-- The segment loop of TraceCondemnRefSet (trace.c): every segment
must be neither grey nor white for the trace (assertions), and a
segment of a pool with the GC attribute whose zones all lie in the
condemned set is handed to TraceAddWhite.  An error from the pool
unwinds the loop. -/
def condemnLoop (amc : AMCM) (canAllocBoard : Bool) (tr : TraceM)
    (condemnedSet : RefSet) :
    List SegM → Option (Res × TraceM × List SegM × AMCM)
  | [] => some (.OK, tr, [], amc)
  | seg :: rest =>
      if TraceSetIsMember seg.grey tr.ti then none
      else if TraceSetIsMember seg.white tr.ti then none
      else if seg.attrGC ∧ RefSetSuper condemnedSet seg.refset then
        match TraceAddWhite amc canAllocBoard tr seg with
        | none => none
        | some (res, tr1, seg1, amc1) =>
            if res ≠ .OK then some (res, tr1, seg1 :: rest, amc1)
            else
              match condemnLoop amc1 canAllocBoard tr1 condemnedSet rest with
              | none => none
              | some (r, tr2, rest2, amc2) => some (r, tr2, seg1 :: rest2, amc2)
      else
        match condemnLoop amc canAllocBoard tr condemnedSet rest with
        | none => none
        | some (r, tr2, rest2, amc2) => some (r, tr2, seg :: rest2, amc2)

/-- TraceCondemnRefSet (trace.c): condemn the segments lying in a zone
set.  The source asserts a trace in state INIT with an empty white
approximation and a non-empty condemned set, and finally that the
white approximation stays inside the condemned set; a None result
models an assertion failure. -/
def TraceCondemnRefSet (amc : AMCM) (canAllocBoard : Bool) (tr : TraceM)
    (segs : List SegM) (condemnedSet : RefSet) :
    Option (Res × TraceM × List SegM × AMCM) :=
  if tr.state ≠ .INIT then none
  else if tr.white ≠ RefSetEMPTY then none
  else if condemnedSet = RefSetEMPTY then none
  else
    match condemnLoop amc canAllocBoard tr condemnedSet segs with
    | none => none
    | some (r, tr1, segs1, amc1) =>
        if r = .OK ∧ ¬ RefSetSuper condemnedSet tr1.white then none
        else some (r, tr1, segs1, amc1)

/-- Modelled from the spec: PoolGrey (the pool grey method is not under
src/) turns the segment grey for the trace. -/
def poolGreySeg (ti : TraceId) (seg : SegM) : SegM :=
  { seg with grey := TraceSetAdd seg.grey ti }

/-- The segment loop of TraceStart (trace.c): no segment may already be
grey for the trace (assertion); a segment holding references whose
summary meets the white approximation of the trace is greyed, and the
sizes of the greyed segments accumulate into the foundation. -/
def traceStartSegs (ti : TraceId) (white : RefSet) :
    List SegM → Option (List SegM × Nat)
  | [] => some ([], 0)
  | seg :: rest =>
      if TraceSetIsMember seg.grey ti then none
      else
        let seg1 :=
          if seg.rankSet ≠ 0 ∧ RefSetInter seg.summary white ≠ RefSetEMPTY then
            poolGreySeg ti seg
          else seg
        let add := if TraceSetIsMember seg1.grey ti then seg1.size else 0
        match traceStartSegs ti white rest with
        | none => none
        | some (rest1, f) => some (seg1 :: rest1, add + f)

/-- TraceFlip (trace.c): blacken the mutator and mark the trace
flipped.  Flipping buffers, ageing location dependencies, scanning the
roots and raising read barriers do not change any field modelled here
when no segment is white for the trace; root scanning counts towards
root accounting, not the regulated work clock. -/
def TraceFlip (tr : TraceM) : TraceM := { tr with state := .FLIPPED }

/-- TraceStart (trace.c): from the white set derive the grey set,
compute the scanning rate, and flip the trace at once.  The source
computes the number of polls from a floating-point finishing time; the
truncated survivor estimate and poll count enter the model as the
natural numbers sSurvivors and nPolls (clamped to at least one poll),
so that rate = (foundation + sSurvivors) / nPolls + 1. -/
def TraceStart (tr : TraceM) (segs : List SegM) (sSurvivors nPolls : Nat) :
    Option (TraceM × List SegM) :=
  if tr.state ≠ .INIT then none
  else
    match traceStartSegs tr.ti tr.white segs with
    | none => none
    | some (segs1, foundation) =>
        let nP := max nPolls 1
        let tr1 := { tr with foundation := foundation,
                             rate := (foundation + sSurvivors) / nP + 1,
                             state := .UNFLIPPED }
        some (TraceFlip tr1, segs1)

/-- The grey work list of a trace over a segment list: the sizes of the
segments grey for it (the bridge between the segment-level model and
the poll state machine). -/
def greysOfSegs (ti : TraceId) (segs : List SegM) : List Nat :=
  (segs.filter fun s => TraceSetIsMember s.grey ti).map fun s => s.size

/-- The walk of amcSegReclaimNailed (poolamc.c): skip through the
formatted objects of (p, limit), deciding for each whether it is
preserved (pinned per the nailboard, or, without a board, not yet
forwarded), and coalescing runs of non-survivors into padding objects.
Returns the count and total size of the objects preserved in place and
the padding ranges written.  None models a failing assertion (an
object that does not advance, or a layout that misses the limit). -/
def amcSegReclaimWalkGo (amc : AMCM) (fmt : FormatM) (board : Option NailboardM) :
    Nat → Nat → Nat → Nat → Nat → Nat → Nat → List (Nat × Nat) →
    Option (Nat × Nat × List (Nat × Nat))
  | 0, p, limit, padBase, padLength, count, size, pads =>
    if p < limit then none
    else if p = limit then
      let pads1 := if padLength > 0 then pads ++ [(padBase, padLength)] else pads
      some (count, size, pads1)
    else none
  | fuel + 1, p, limit, padBase, padLength, count, size, pads =>
    if p < limit then
      let q := fmt.skip (p + fmt.headerSize) - fmt.headerSize
      if p < q then
        let len := q - p
        let preserve :=
          match board with
          | some b =>
              amcPinned amc.pinPolicy fmt.headerSize b (p + fmt.headerSize)
                (fmt.skip (p + fmt.headerSize))
          | none => (fmt.isMoved (p + fmt.headerSize)).isNone
        if preserve then
          let pads1 :=
            if padLength > 0 then pads ++ [(padBase, padLength)] else pads
          amcSegReclaimWalkGo amc fmt board fuel q limit q 0
            (count + 1) (size + len) pads1
        else
          amcSegReclaimWalkGo amc fmt board fuel q limit padBase
            (padLength + len) count size pads
      else none
    else if p = limit then
      let pads1 := if padLength > 0 then pads ++ [(padBase, padLength)] else pads
      some (count, size, pads1)
    else none

/-- The walk entry point: the loop advances p by at least one each
iteration so limit minus p bounds the number of iterations; fuel
exhaustion therefore never decides the outcome. -/
def amcSegReclaimWalk (amc : AMCM) (fmt : FormatM) (board : Option NailboardM)
    (p limit padBase padLength count size : Nat) (pads : List (Nat × Nat)) :
    Option (Nat × Nat × List (Nat × Nat)) :=
  amcSegReclaimWalkGo amc fmt board (limit - p) p limit padBase padLength
    count size pads

/-- The iteration of amcSegTiles, with the same explicit iteration
bound as the walk. -/
def amcSegTilesGo (fmt : FormatM) : Nat → Nat → Nat → Bool
  | 0, p, limit => !decide (p < limit) && decide (p = limit)
  | fuel + 1, p, limit =>
    if p < limit then
      let q := fmt.skip (p + fmt.headerSize) - fmt.headerSize
      if p < q then amcSegTilesGo fmt fuel q limit else false
    else decide (p = limit)

/-- amcSegTiles: the segment layout is well formed for the reclaim
walk, that is, repeated format skips from p reach the limit exactly
(each object is non-empty and the last one ends at the limit). -/
def amcSegTiles (fmt : FormatM) (p limit : Nat) : Bool :=
  amcSegTilesGo fmt (limit - p) p limit

/-- The surviving segment of amcSegReclaimNailed: the trace is removed
from the nailed and white sets, and the nailboard is destroyed when
the last trace releases it. -/
def amcSegUnwhitened (seg : SegM) (ti : TraceId) : SegM :=
  { seg with nailed := TraceSetDel seg.nailed ti,
             white := TraceSetDel seg.white ti,
             board := if TraceSetDel seg.nailed ti = 0 then none else seg.board }

/-- amcSegReclaimNailed (poolamc.c): reclaim what can be reclaimed from
a nailed segment.  The walk pads the non-survivors; the trace is
removed from the nailed and white sets; the nailboard is destroyed
when the last trace releases it; and the segment is freed when nothing
survived in place, it is unbuffered and no longer nailed.  Returns the
surviving segment, or none when it was freed; the outer None models a
failing assertion in the walk. -/
def amcSegReclaimNailed (amc : AMCM) (fmt : FormatM) (ti : TraceId)
    (seg : SegM) : Option (Option SegM) :=
  match amcSegReclaimWalk amc fmt seg.board seg.base (SegBufferScanLimit seg)
      seg.base 0 0 0 [] with
  | none => none
  | some (count, _, _) =>
      if count = 0 ∧ seg.buffer = none ∧ TraceSetDel seg.nailed ti = 0 then
        some none
      else some (some (amcSegUnwhitened seg ti))

/-- The ramp transition of amcSegReclaim (poolamc.c): the ramp state
machine leaves COLLECTING, to BEGIN if a new ramp already started and
to OUTSIDE otherwise. -/
def amcRampReclaimed (amc : AMCM) : AMCM :=
  if amc.rampMode = .COLLECTING then
    { amc with rampMode := if amc.rampCount > 0 then .BEGIN else .OUTSIDE }
  else amc

/-- amcSegReclaim (poolamc.c): recycle a segment still white for the
trace.  After the ramp transition, a nailed segment goes through the
nailed reclaim; any other white segment is freed whole.  The source
asserts that an unnailed white segment is unbuffered; None models an
assertion failure. -/
def amcSegReclaim (amc : AMCM) (fmt : FormatM) (ti : TraceId) (seg : SegM) :
    Option (AMCM × Option SegM) :=
  if seg.nailed ≠ 0 then
    match amcSegReclaimNailed (amcRampReclaimed amc) fmt ti seg with
    | none => none
    | some r => some (amcRampReclaimed amc, r)
  else if seg.buffer ≠ none then none
  else some (amcRampReclaimed amc, none)

/-- The segment loop of TraceReclaim (trace.c): no segment may be grey
for the trace; every segment white for it must come from a pool with
the GC attribute and is passed to the pool reclaim method, after which
it must no longer be white for the trace (all assertions, modelled by
None). -/
def traceReclaimLoop (amc : AMCM) (fmt : FormatM) (ti : TraceId) :
    List SegM → Option (AMCM × List SegM)
  | [] => some (amc, [])
  | seg :: rest =>
      if TraceSetIsMember seg.grey ti then none
      else if TraceSetIsMember seg.white ti then
        if !seg.attrGC then none
        else
          match amcSegReclaim amc fmt ti seg with
          | none => none
          | some (amc1, segOpt) =>
              match segOpt with
              | some seg1 =>
                  if TraceSetIsMember seg1.white ti then none
                  else
                    match traceReclaimLoop amc1 fmt ti rest with
                    | none => none
                    | some (amc2, rest2) => some (amc2, seg1 :: rest2)
              | none =>
                  traceReclaimLoop amc1 fmt ti rest
      else
        match traceReclaimLoop amc fmt ti rest with
        | none => none
        | some (amc2, rest2) => some (amc2, seg :: rest2)

/-- TraceReclaim (trace.c): make the trace reclaim its white segments
and mark it FINISHED.  The source asserts state RECLAIM on entry;
None models an assertion failure (in the entry check or the loop). -/
def TraceReclaim (amc : AMCM) (fmt : FormatM) (tr : TraceM)
    (segs : List SegM) : Option (TraceM × AMCM × List SegM) :=
  if tr.state ≠ .RECLAIM then none
  else
    match traceReclaimLoop amc fmt tr.ti segs with
    | none => none
    | some (amc1, segs1) =>
        some ({ tr with state := .FINISHED }, amc1, segs1)

/-- AMCRampBegin (poolamc.c): note an entry into a ramp pattern.  The
count rises; the first entry switches the mode to BEGIN unless a
previous ramp is still FINISHing. -/
def AMCRampBegin (amc : AMCM) : AMCM :=
  if amc.rampCount + 1 = 1 then
    if amc.rampMode ≠ .FINISH then
      { amc with rampCount := amc.rampCount + 1, rampMode := .BEGIN }
    else { amc with rampCount := amc.rampCount + 1 }
  else { amc with rampCount := amc.rampCount + 1 }

/-- The mode switch of AMCRampEnd when the last nested ramp ends:
RAMPING advances to FINISH, BEGIN and COLLECTING fall back to OUTSIDE,
FINISH stays put (OUTSIDE is NOTREACHED in the source). -/
def rampEndMode (m : RampMode) : RampMode :=
  match m with
  | .RAMPING => .FINISH
  | .BEGIN => .OUTSIDE
  | .COLLECTING => .OUTSIDE
  | m => m

/-- AMCRampEnd (poolamc.c): note an exit from a ramp pattern.  When the
last nested ramp ends the mode advances and the deferred unwhitened
segments of the ramp generation stop being deferred.  The source
asserts a positive count on entry. -/
def AMCRampEnd (amc : AMCM) (segs : List SegM) : AMCM × List SegM :=
  if amc.rampCount - 1 = 0 then
    ({ amc with rampCount := amc.rampCount - 1,
                rampMode := rampEndMode amc.rampMode },
     segs.map fun seg =>
       if seg.genIdx = amc.rampGenIdx ∧ seg.deferred
           ∧ seg.white = TraceSetEMPTY
       then { seg with deferred := false } else seg)
  else ({ amc with rampCount := amc.rampCount - 1 }, segs)

/-- SizeArenaGrains (mpm): round a size up to a whole number of arena
grains. -/
def SizeArenaGrains (size grain : Nat) : Nat :=
  ((size + grain - 1) / grain) * grain

/-- What AMCBufferFill observably does: the buffer range handed out,
the size of the fresh segment, the padding written into its slack, and
whether the segment accounting was deferred. -/
structure FillOut where
  base : Nat
  limit : Nat
  segSize : Nat
  padded : Option (Nat × Nat)
  deferredSet : Bool
deriving DecidableEq, Repr

/-- AMCBufferFill (poolamc.c): refill an allocation buffer.  A fresh
segment of extendBy grains (or the request rounded up to whole grains,
when larger) is allocated at newBase; allocOK models the segment
allocation succeeding.  Requests below largeSize hand the buffer the
whole segment; large requests hand it exactly the size requested and
pad the slack up to the segment limit.  Ramp-deferred and hash-array
buffers mark the segment deferred. -/
def AMCBufferFill (amc : AMCM) (grain newBase : Nat) (allocOK : Bool)
    (genIdx : Nat) (isRampForward forHashArrays : Bool) (size : Nat) :
    Option FillOut :=
  if size = 0 then none
  else if !allocOK then none
  else
    let grainsSize :=
      if size < amc.extendBy then amc.extendBy else SizeArenaGrains size grain
    let deferredSet :=
      (amc.rampMode = .RAMPING ∧ isRampForward ∧ genIdx = amc.rampGenIdx)
        ∨ forHashArrays
    let base := newBase
    if size < amc.largeSize then
      some { base := base, limit := base + grainsSize, segSize := grainsSize,
             padded := none, deferredSet := deferredSet }
    else
      let limit := base + size
      let padSize := grainsSize - size
      some { base := base, limit := limit, segSize := grainsSize,
             padded := if padSize > 0 then some (limit, padSize) else none,
             deferredSet := deferredSet }

/-- The ramp invariant checked by AMCCheck (poolamc.c): outside a ramp
the count is zero, and in modes BEGIN and RAMPING it is non-zero. -/
def RampInv (amc : AMCM) : Prop :=
  (amc.rampMode = .OUTSIDE → amc.rampCount = 0)
    ∧ ((amc.rampMode = .BEGIN ∨ amc.rampMode = .RAMPING) → amc.rampCount ≠ 0)

instance : DecidablePred RampInv := fun amc => by
  unfold RampInv; infer_instance

/-! Concrete example values used to witness the theorems below. -/

/-- A concrete format: headerless two-word objects, none forwarded. -/
def exFmt : FormatM :=
  { headerSize := 0, skip := fun p => p + 2, isMoved := fun _ => none }

/-- A concrete format whose objects are all forwarded by one word. -/
def exFmtMoved : FormatM :=
  { headerSize := 0, skip := fun p => p + 2, isMoved := fun p => some (p + 1) }

/-- A concrete trace: flipped, with work still to do. -/
def exTraceFlipped : TraceM :=
  { ti := 0, state := .FLIPPED, emergency := false, white := 1,
    mayMove := 0, foundation := 8, rate := 4, segScanSize := 0 }

/-- A concrete poll state: two grey segments, allocation exhausted. -/
def exPoll : PollSt :=
  { tr := exTraceFlipped, greys := [8, 8], allocOK := false }

/-- A concrete AMC pool outside a ramp. -/
def exAmc : AMCM :=
  { rampMode := .OUTSIDE, rampCount := 0, rampGenIdx := 1,
    afterRampGenIdx := 2, forwardGen := [1, 2, 2], pinPolicy := .interior,
    extendBy := 16, largeSize := 64 }

/-- A concrete plain white segment (no buffer, no board, not nailed). -/
def exSegWhite : SegM :=
  { base := 0, size := 16, white := 1, grey := 0, nailed := 0,
    rankSet := 1, summary := 0, refset := 1, board := none, buffer := none,
    old := true, deferred := false, accountedAsBuffered := false,
    forwarded := [0], genIdx := 0, attrGC := true, attrMovingGC := true }

/-- A concrete white nailed segment with a nailboard pinning the object
at address 0. -/
def exSegNailed : SegM :=
  { exSegWhite with nailed := 1, board := some ⟨[0], false⟩ }

/-- A concrete mutator buffer whose scan limit sits at the segment
base, so the buffer spans the whole used portion of the segment. -/
def exBufSpans : BufM :=
  { base := 0, scanLimit := 0, limit := 16, isMutator := true }

/-- A concrete black collectable segment with an attached mutator
buffer that spans the whole used portion of the segment. -/
def exSegBufferSpans : SegM :=
  { exSegWhite with
    white := 0,
    old := false,
    accountedAsBuffered := true,
    buffer := some exBufSpans }

/-- A concrete trace in state INIT with nothing condemned. -/
def exTraceInit : TraceM :=
  { ti := 0, state := .INIT, emergency := false, white := 0,
    mayMove := 0, foundation := 0, rate := 0, segScanSize := 0 }

/-- A concrete trace in state RECLAIM. -/
def exTraceReclaim : TraceM := { exTraceInit with state := .RECLAIM }

/-- A concrete scan state of exact rank serving trace 0. -/
def exSS : ScanStateM :=
  { rank := .EXACT, traces := 1, white := 1, unfixedSummary := 0,
    fixedSummary := 0, wasMarked := true }

/-- A concrete forwarding buffer with room. -/
def exFwdBuf : FwdBufM :=
  { allocP := 100, limit := 200, grey := 0, summary := 0, rankSet := 1 }

/-- The trace exTraceInit after TraceStart over no segments: nothing
grey, rate one, flipped. -/
def exTraceStarted : TraceM :=
  { exTraceInit with foundation := 0, rate := 1, state := .FLIPPED }

/-- The segments on which amcSegWhiten declines to condemn: an attached
mutator buffer either spans the whole used portion of the segment, or
the unused tail needs a nailboard that cannot be obtained (the segment
is already nailed without a board, or nailboard allocation fails). -/
def amcWhitenSkips (canAllocBoard : Bool) (seg : SegM) : Prop :=
  ∃ b, seg.buffer = some b ∧ b.isMutator = true
    ∧ (b.scanLimit = seg.base
        ∨ (seg.board = none ∧ (seg.nailed ≠ 0 ∨ canAllocBoard = false)))

/-! Helper lemmas about the bitset model. -/

theorem traceSetAdd_member (ts : TraceSet) (ti : TraceId) :
    TraceSetIsMember (TraceSetAdd ts ti) ti = true := by
  unfold TraceSetIsMember TraceSetAdd
  rw [Nat.testBit_lor, Nat.one_shiftLeft, Nat.testBit_two_pow_self]
  simp

theorem traceSetDel_not_member (ts : TraceSet) (ti : TraceId) :
    TraceSetIsMember (TraceSetDel ts ti) ti = false := by
  unfold TraceSetIsMember TraceSetDel
  rw [Nat.testBit_ldiff, Nat.one_shiftLeft, Nat.testBit_two_pow_self]
  simp

theorem refSetSuper_univ (x : RefSet) (h : x < 2 ^ wordWidth) :
    RefSetSuper RefSetUNIV x = true := by
  unfold RefSetSuper RefSetInter RefSetUNIV
  simp only [decide_eq_true_eq]
  apply Nat.eq_of_testBit_eq
  intro i
  rw [Nat.testBit_land, Nat.testBit_two_pow_sub_one]
  by_cases hi : i < wordWidth
  · simp [hi]
  · simp only [hi, decide_False, Bool.false_and]
    exact (Nat.testBit_eq_false_of_lt
      (lt_of_lt_of_le h (Nat.pow_le_pow_right (by norm_num) (by omega)))).symm

theorem ldiff_zero_left (n : Nat) : Nat.ldiff 0 n = 0 := by
  apply Nat.eq_of_testBit_eq
  intro i
  rw [Nat.testBit_ldiff]
  simp

/-- Claim C3: for every scan state, ScanStateSummary is the union of
the fixed summary with the unfixed summary minus the white set (stated
zone by zone), and after ScanStateSetSummary an immediate
ScanStateSummary returns exactly the summary that was set. -/
theorem scanStateSummary_spec (ss : ScanStateM) (s : RefSet) :
    (∀ i, (ScanStateSummary ss).testBit i =
        (ss.fixedSummary.testBit i
          || (ss.unfixedSummary.testBit i && !(ss.white.testBit i))))
    ∧ ScanStateSummary (ScanStateSetSummary ss s) = s := by
  constructor
  · intro i
    unfold ScanStateSummary RefSetUnion RefSetDiff
    rw [Nat.testBit_lor, Nat.testBit_ldiff]
  · unfold ScanStateSummary ScanStateSetSummary RefSetUnion RefSetDiff RefSetEMPTY
    simp [ldiff_zero_left]

/-! Lemmas about the trace poll state machine. -/

theorem traceStep_emergency_ok (t : PollSt) (he : t.tr.emergency = true)
    (hs : t.tr.state = .FLIPPED ∨ t.tr.state = .RECLAIM) :
    (TraceStep t).1 = .OK := by
  unfold TraceStep traceRunStep
  rcases hs with h | h <;> rw [h] <;> simp
  cases t.greys <;> simp [he]

theorem traceStep_keeps_emergency (t : PollSt) :
    ((TraceStep t).2).tr.emergency = t.tr.emergency := by
  unfold TraceStep traceRunStep
  cases h : t.tr.state <;> simp
  cases t.greys <;> simp
  split <;> simp

theorem traceStep_ok_state (t : PollSt)
    (hs : t.tr.state = .FLIPPED ∨ t.tr.state = .RECLAIM)
    (hok : (TraceStep t).1 = .OK) :
    ((TraceStep t).2.tr.state = .FLIPPED ∨ (TraceStep t).2.tr.state = .RECLAIM
        ∨ (TraceStep t).2.tr.state = .FINISHED)
      ∧ pollMeasure (TraceStep t).2 < pollMeasure t := by
  unfold TraceStep traceRunStep pollMeasure
  rcases hs with h | h <;> rw [h] <;> simp
  cases hg : t.greys with
  | nil => simp [h]
  | cons g rest =>
      simp only
      split
      · simp [h, hg]
      · unfold TraceStep traceRunStep at hok
        rw [h, hg] at hok
        simp at hok
        split at hok <;> simp_all

theorem traceStep_fail_fixes (t : PollSt)
    (hs : t.tr.state = .FLIPPED ∨ t.tr.state = .RECLAIM)
    (hf : (TraceStep t).1 ≠ .OK) : (TraceStep t).2 = t := by
  unfold TraceStep traceRunStep
  unfold TraceStep traceRunStep at hf
  rcases hs with h | h <;> rw [h] <;> rw [h] at hf <;> simp at hf ⊢
  cases hg : t.greys with
  | nil => rw [hg] at hf; simp at hf
  | cons g rest =>
      rw [hg] at hf
      simp only at hf ⊢
      split <;> simp_all

theorem traceStep_work_monotone (t : PollSt) :
    t.tr.segScanSize ≤ ((TraceStep t).2).tr.segScanSize := by
  unfold TraceStep traceRunStep
  cases t.tr.state <;> simp
  cases t.greys <;> simp
  split <;> simp

theorem traceStepLoop_finishes (n : Nat) :
    ∀ t : PollSt, t.tr.emergency = true →
      (t.tr.state = .FLIPPED ∨ t.tr.state = .RECLAIM ∨ t.tr.state = .FINISHED) →
      pollMeasure t ≤ n →
      (traceStepLoop n t).tr.state = .FINISHED
        ∧ (traceStepLoop n t).tr.emergency = true := by
  induction n with
  | zero =>
      intro t he hs hm
      unfold traceStepLoop
      rcases hs with h | h | h <;> (unfold pollMeasure at hm; rw [h] at hm ⊢) <;>
        simp_all
  | succ n ih =>
      intro t he hs hm
      unfold traceStepLoop
      by_cases hfin : t.tr.state = .FINISHED
      · simp [hfin, he]
      · have hs2 : t.tr.state = .FLIPPED ∨ t.tr.state = .RECLAIM := by tauto
        simp only [hfin, if_false]
        have hok := traceStep_emergency_ok t he hs2
        have hst := traceStep_ok_state t hs2 hok
        refine ih (TraceStep t).2 ?_ ?_ ?_
        · rw [traceStep_keeps_emergency]; exact he
        · tauto
        · omega

theorem traceExpedite_spec (t : PollSt)
    (hs : t.tr.state = .FLIPPED ∨ t.tr.state = .RECLAIM ∨ t.tr.state = .FINISHED) :
    (TraceExpedite t).tr.state = .FINISHED
      ∧ (TraceExpedite t).tr.emergency = true := by
  unfold TraceExpedite
  apply traceStepLoop_finishes
  · rfl
  · simpa using hs
  · simp [pollMeasure]

theorem tracePollLoop_post (n : Nat) :
    ∀ (pollEnd : Nat) (t : PollSt),
      (t.tr.state = .FLIPPED ∨ t.tr.state = .RECLAIM) →
      pollMeasure t ≤ n →
      (tracePollLoop n pollEnd t).tr.state = .FINISHED
        ∨ pollEnd ≤ (tracePollLoop n pollEnd t).tr.segScanSize := by
  induction n with
  | zero =>
      intro pollEnd t hs hm
      exfalso
      rcases hs with h | h <;> simp [pollMeasure, h] at hm
  | succ n ih =>
      intro pollEnd t hs hm
      unfold tracePollLoop
      by_cases hfail : (TraceStep t).1 ≠ .OK
      · rw [if_pos hfail]
        left
        have hfix := traceStep_fail_fixes t hs hfail
        exact (traceExpedite_spec (TraceStep t).2 (by rw [hfix]; tauto)).1
      · push_neg at hfail
        have hst := traceStep_ok_state t hs hfail
        rw [if_neg (by simp [hfail])]
        by_cases hcont : (TraceStep t).2.tr.state ≠ .FINISHED
            ∧ TraceWorkClock (TraceStep t).2.tr < pollEnd
        · rw [if_pos hcont]
          have hs2 : (TraceStep t).2.tr.state = .FLIPPED
              ∨ (TraceStep t).2.tr.state = .RECLAIM := by
            rcases hst.1 with h | h | h
            · exact Or.inl h
            · exact Or.inr h
            · exact absurd h hcont.1
          exact ih pollEnd (TraceStep t).2 hs2 (by omega)
        · rw [if_neg hcont]
          by_cases hfin : (TraceStep t).2.tr.state = .FINISHED
          · exact Or.inl hfin
          · right
            rcases not_and_or.mp hcont with h1 | h2
            · exact absurd hfin (by simpa using h1)
            · exact Nat.le_of_not_lt h2

/-- Claim C1: on any TraceStep failure inside TracePoll the trace is
expedited: the emergency flag is set and the trace is stepped to
FINISHED, and an emergency step never returns an error (at the pool
level, amcSegFixEmergency returns OK on every input); consequently
TracePoll always terminates with the trace FINISHED or with the work
clock advanced by at least the trace rate. -/
theorem tracePoll_bounded_progress (t : PollSt)
    (hs : t.tr.state = .FLIPPED ∨ t.tr.state = .RECLAIM) :
    ((TracePoll t).tr.state = .FINISHED
        ∨ TraceWorkClock t.tr + t.tr.rate ≤ TraceWorkClock (TracePoll t).tr)
      ∧ (∀ u : PollSt, u.tr.emergency = true →
          u.tr.state = .FLIPPED ∨ u.tr.state = .RECLAIM → (TraceStep u).1 = .OK)
      ∧ ((TraceExpedite t).tr.state = .FINISHED
          ∧ (TraceExpedite t).tr.emergency = true)
      ∧ (∀ (fmt : FormatM) (seg : SegM) (ss : ScanStateM) (refv : Nat),
          (amcSegFixEmergency fmt seg ss refv).res = .OK) := by
  refine ⟨?_, ?_, ?_, ?_⟩
  · unfold TracePoll
    exact tracePollLoop_post (pollMeasure t) (TraceWorkClock t.tr + t.tr.rate) t
      hs (le_refl _)
  · intro u he hsu
    exact traceStep_emergency_ok u he hsu
  · exact traceExpedite_spec t (by tauto)
  · intro fmt seg ss refv
    unfold amcSegFixEmergency
    split
    · rfl
    · split <;> rfl

/-- Witness for Claim C1 at a concrete flipped trace with two grey
segments and exhausted allocation. -/
theorem tracePoll_bounded_progress_witness :
    (exPoll.tr.state = .FLIPPED ∨ exPoll.tr.state = .RECLAIM)
    ∧ ((TracePoll exPoll).tr.state = .FINISHED
        ∨ TraceWorkClock exPoll.tr + exPoll.tr.rate
            ≤ TraceWorkClock (TracePoll exPoll).tr) :=
  ⟨Or.inl rfl, (tracePoll_bounded_progress exPoll (Or.inl rfl)).1⟩

/-- Claim C4: fixing a non-ambiguous reference into a white AMC
segment whose object is already forwarded snaps the slot to the
forwarded address and returns OK, copying no bytes, reserving nothing
from the forwarding buffer, and leaving the segment (in particular its
colour sets, nail set and nailboard) unchanged. -/
theorem amcSegFix_snapout (amc : AMCM) (fmt : FormatM) (canAllocBoard : Bool)
    (seg : SegM) (buf : FwdBufM) (ss : ScanStateM) (refv newRef : Nat)
    (hr : ss.rank ≠ .AMBIG)
    (hw : TraceSetInter seg.white ss.traces ≠ TraceSetEMPTY)
    (hm : fmt.isMoved refv = some newRef) :
    (amcSegFix amc fmt canAllocBoard seg buf ss refv).res = .OK
      ∧ (amcSegFix amc fmt canAllocBoard seg buf ss refv).slot = newRef
      ∧ (amcSegFix amc fmt canAllocBoard seg buf ss refv).copied = 0
      ∧ (amcSegFix amc fmt canAllocBoard seg buf ss refv).reserved = 0
      ∧ (amcSegFix amc fmt canAllocBoard seg buf ss refv).seg = seg
      ∧ (amcSegFix amc fmt canAllocBoard seg buf ss refv).buf = buf := by
  unfold amcSegFix
  rw [if_neg hr, hm]
  simp

/-- Witness for Claim C4 at a concrete forwarded object. -/
theorem amcSegFix_snapout_witness :
    (exSS.rank ≠ .AMBIG
        ∧ TraceSetInter exSegWhite.white exSS.traces ≠ TraceSetEMPTY
        ∧ exFmtMoved.isMoved 4 = some 5)
    ∧ ((amcSegFix exAmc exFmtMoved true exSegWhite exFwdBuf exSS 4).res = .OK
        ∧ (amcSegFix exAmc exFmtMoved true exSegWhite exFwdBuf exSS 4).slot = 5
        ∧ (amcSegFix exAmc exFmtMoved true exSegWhite exFwdBuf exSS 4).copied = 0
        ∧ (amcSegFix exAmc exFmtMoved true exSegWhite exFwdBuf exSS 4).reserved = 0
        ∧ (amcSegFix exAmc exFmtMoved true exSegWhite exFwdBuf exSS 4).seg = exSegWhite
        ∧ (amcSegFix exAmc exFmtMoved true exSegWhite exFwdBuf exSS 4).buf = exFwdBuf) :=
  ⟨⟨by decide, by decide, rfl⟩,
   amcSegFix_snapout exAmc exFmtMoved true exSegWhite exFwdBuf exSS 4 5
     (by decide) (by decide) rfl⟩

/-- Claim C5: fixing a reference into a white AMC segment that is
nailed, when the object is pinned by the nailboard (or the segment is
nailed without a board), returns OK, leaves the reference slot
unchanged and copies nothing. -/
theorem amcSegFix_nailed_pinned_in_place (amc : AMCM) (fmt : FormatM)
    (canAllocBoard : Bool) (seg : SegM) (buf : FwdBufM) (ss : ScanStateM)
    (refv : Nat)
    (hw : TraceSetInter seg.white ss.traces ≠ TraceSetEMPTY)
    (hn : seg.nailed ≠ 0)
    (hp : amcSegPinnedHold amc fmt seg refv (fmt.skip refv) = true)
    (hm : fmt.isMoved refv = none) :
    (amcSegFix amc fmt canAllocBoard seg buf ss refv).res = .OK
      ∧ (amcSegFix amc fmt canAllocBoard seg buf ss refv).slot = refv
      ∧ (amcSegFix amc fmt canAllocBoard seg buf ss refv).copied = 0 := by
  unfold amcSegFix
  by_cases ha : ss.rank = .AMBIG
  · rw [if_pos ha, if_neg hn]
    simp
  · rw [if_neg ha, hm]
    simp only
    rw [if_pos ⟨hn, hp⟩]
    simp

/-- Witness for Claim C5 at a concrete nailed and pinned object. -/
theorem amcSegFix_nailed_pinned_in_place_witness :
    (TraceSetInter exSegNailed.white exSS.traces ≠ TraceSetEMPTY
        ∧ exSegNailed.nailed ≠ 0
        ∧ amcSegPinnedHold exAmc exFmt exSegNailed 0 (exFmt.skip 0) = true
        ∧ exFmt.isMoved 0 = none)
    ∧ ((amcSegFix exAmc exFmt true exSegNailed exFwdBuf exSS 0).res = .OK
        ∧ (amcSegFix exAmc exFmt true exSegNailed exFwdBuf exSS 0).slot = 0
        ∧ (amcSegFix exAmc exFmt true exSegNailed exFwdBuf exSS 0).copied = 0) :=
  ⟨⟨by decide, by decide, by decide, rfl⟩,
   amcSegFix_nailed_pinned_in_place exAmc exFmt true exSegNailed exFwdBuf exSS 0
     (by decide) (by decide) (by decide) rfl⟩

/-- Claim C8: whitening a segment whose attached mutator buffer has its
scan limit at the segment base (the buffer spans the whole used
portion) returns OK and does nothing: the segment is unchanged (so the
trace is not added to its white set), the pool is unchanged, and the
condemned size of the generation is not increased. -/
theorem amcSegWhiten_buffer_spans_skip (amc : AMCM) (canAllocBoard : Bool)
    (seg : SegM) (ti : TraceId) (b : BufM)
    (hb : seg.buffer = some b) (hmut : b.isMutator = true)
    (hsl : b.scanLimit = seg.base) :
    amcSegWhiten amc canAllocBoard seg ti
      = { res := .OK, seg := seg, amc := amc, didCondemn := false,
          condemned := 0 } := by
  unfold amcSegWhiten
  rw [hb]
  simp [hmut, hsl]

/-- Witness for Claim C8 at a concrete buffered segment. -/
theorem amcSegWhiten_buffer_spans_skip_witness :
    (exSegBufferSpans.buffer = some exBufSpans
        ∧ exBufSpans.isMutator = true
        ∧ exBufSpans.scanLimit = exSegBufferSpans.base)
    ∧ amcSegWhiten exAmc true exSegBufferSpans 0
        = { res := .OK, seg := exSegBufferSpans, amc := exAmc,
            didCondemn := false, condemned := 0 } :=
  ⟨⟨rfl, rfl, rfl⟩,
   amcSegWhiten_buffer_spans_skip exAmc true exSegBufferSpans 0 exBufSpans
     rfl rfl rfl⟩

/-- amcSegWhiten always reports OK: every failure to condemn is
converted into a skip. -/
theorem amcSegWhiten_res_ok (amc : AMCM) (canAllocBoard : Bool) (seg : SegM)
    (ti : TraceId) : (amcSegWhiten amc canAllocBoard seg ti).res = .OK := by
  unfold amcSegWhiten
  repeat' split
  all_goals rfl

/-- amcSegWhiten either whitens the segment for the trace or leaves it
untouched for one of the amcWhitenSkips reasons. -/
theorem amcSegWhiten_white_or_skip (amc : AMCM) (canAllocBoard : Bool)
    (seg : SegM) (ti : TraceId) :
    TraceSetIsMember (amcSegWhiten amc canAllocBoard seg ti).seg.white ti = true
      ∨ ((amcSegWhiten amc canAllocBoard seg ti).seg = seg
          ∧ amcWhitenSkips canAllocBoard seg) := by
  unfold amcSegWhiten
  cases hb : seg.buffer with
  | none =>
      left
      simp only
      exact traceSetAdd_member _ _
  | some b =>
      by_cases hmut : b.isMutator
      · by_cases hsl : b.scanLimit = seg.base
        · right
          simp only [hmut, hsl]
          simp
          exact ⟨b, hb, hmut, Or.inl hsl⟩
        · cases hboard : seg.board with
          | none =>
              by_cases hn : seg.nailed = 0
              · by_cases hcab : canAllocBoard
                · left
                  simp only [hmut, hsl, hboard, hn, hcab]
                  simp
                  exact traceSetAdd_member _ _
                · right
                  simp only [hmut, hsl, hboard, hn]
                  simp [hcab]
                  exact ⟨b, hb, hmut, Or.inr ⟨hboard, Or.inr (by simpa using hcab)⟩⟩
              · right
                simp only [hmut, hsl, hboard, hn]
                simp [hn]
                exact ⟨b, hb, hmut, Or.inr ⟨hboard, Or.inl hn⟩⟩
          | some board =>
              left
              simp only [hmut, hsl, hboard]
              simp
              exact traceSetAdd_member _ _
      · left
        simp only [hmut]
        simp
        exact traceSetAdd_member _ _

/-- TraceAddWhite succeeds with OK, keeps the trace id, and returns the
whitened segment of amcSegWhiten. -/
theorem traceAddWhite_some (amc : AMCM) (canAllocBoard : Bool) (tr : TraceM)
    (seg : SegM) (res : Res) (tr1 : TraceM) (seg1 : SegM) (amc1 : AMCM)
    (h : TraceAddWhite amc canAllocBoard tr seg = some (res, tr1, seg1, amc1)) :
    res = .OK ∧ tr1.ti = tr.ti
      ∧ seg1 = (amcSegWhiten amc canAllocBoard seg tr.ti).seg := by
  unfold TraceAddWhite at h
  split at h
  · exact absurd h (by simp)
  · rw [if_neg (by simp [amcSegWhiten_res_ok])] at h
    simp only [Option.some.injEq, Prod.mk.injEq] at h
    obtain ⟨hres, htr, hseg, _⟩ := h
    refine ⟨hres.symm, ?_, hseg.symm⟩
    rw [← htr]
    split
    · split <;> rfl
    · rfl

/-- Through the condemnation loop, every segment of a pool with the GC
attribute whose zones lie in the condemned set ends up white for the
trace or skipped by amcSegWhiten; the other segments are unchanged and
keep their whiteness hypothesis vacuously. -/
theorem condemnLoop_white_or_skipped (canAllocBoard : Bool) (cs : RefSet) :
    ∀ (segs : List SegM) (amc : AMCM) (tr : TraceM) (r : Res) (tr2 : TraceM)
      (segs2 : List SegM) (amc2 : AMCM),
      condemnLoop amc canAllocBoard tr cs segs = some (r, tr2, segs2, amc2) →
      (∀ s ∈ segs, s.attrGC = true → RefSetSuper cs s.refset = true) →
      r = .OK →
      ∀ s ∈ segs2, s.attrGC = true →
        TraceSetIsMember s.white tr.ti = true ∨ amcWhitenSkips canAllocBoard s := by
  intro segs
  induction segs with
  | nil =>
      intro amc tr r tr2 segs2 amc2 h _ _ s hs
      unfold condemnLoop at h
      simp only [Option.some.injEq, Prod.mk.injEq] at h
      obtain ⟨_, _, hsegs, _⟩ := h
      rw [← hsegs] at hs
      exact absurd hs (by simp)
  | cons seg rest ih =>
      intro amc tr r tr2 segs2 amc2 h hsup hok s hs hgc
      unfold condemnLoop at h
      split at h
      · exact absurd h (by simp)
      · split at h
        · exact absurd h (by simp)
        · split at h
          · rename_i hcond
            cases haw : TraceAddWhite amc canAllocBoard tr seg with
            | none => rw [haw] at h; exact absurd h (by simp)
            | some out =>
                obtain ⟨res0, tr1, seg1, amc1⟩ := out
                rw [haw] at h
                have hprops := traceAddWhite_some amc canAllocBoard tr seg
                  res0 tr1 seg1 amc1 haw
                simp only at h
                rw [if_neg (by simp [hprops.1])] at h
                cases hrec : condemnLoop amc1 canAllocBoard tr1 cs rest with
                | none => rw [hrec] at h; exact absurd h (by simp)
                | some out2 =>
                    obtain ⟨r2, tr2', rest2, amc2'⟩ := out2
                    rw [hrec] at h
                    simp only [Option.some.injEq, Prod.mk.injEq] at h
                    obtain ⟨hr, htr, hsegs, _⟩ := h
                    rw [← hsegs] at hs
                    rcases List.mem_cons.mp hs with hs1 | hs1
                    · subst hs1
                      rw [hprops.2.2]
                      rcases amcSegWhiten_white_or_skip amc canAllocBoard seg tr.ti
                        with hwh | hsk
                      · exact Or.inl hwh
                      · rw [hsk.1]
                        exact Or.inr hsk.2
                    · have := ih amc1 tr1 r2 tr2' rest2 amc2' hrec
                        (fun x hx hgx => hsup x (List.mem_cons_of_mem _ hx) hgx)
                        (by rw [hr]; exact hok) s hs1 hgc
                      rw [hprops.2.1] at this
                      exact this
          · rename_i hcond
            cases hrec : condemnLoop amc canAllocBoard tr cs rest with
            | none => rw [hrec] at h; exact absurd h (by simp)
            | some out2 =>
                obtain ⟨r2, tr2', rest2, amc2'⟩ := out2
                rw [hrec] at h
                simp only [Option.some.injEq, Prod.mk.injEq] at h
                obtain ⟨hr, htr, hsegs, _⟩ := h
                rw [← hsegs] at hs
                rcases List.mem_cons.mp hs with hs1 | hs1
                · subst hs1
                  exact absurd ⟨hgc, hsup s (List.mem_cons_self _ _) hgc⟩ hcond
                · exact ih amc tr r2 tr2' rest2 amc2' hrec
                    (fun x hx hgx => hsup x (List.mem_cons_of_mem _ hx) hgx)
                    (by rw [hr]; exact hok) s hs1 hgc

/-- Claim C6 (amended): if TraceCondemnRefSet on a trace in state INIT
with the universal RefSet returns OK, every segment of a pool with the
GC attribute afterwards has the trace id in its white set, except
those amcSegWhiten skipped because of an attached mutator buffer (the
buffer spans the whole used portion, or the segment needs a nailboard
it cannot get). -/
theorem condemnUniv_white_or_skipped (amc : AMCM) (canAllocBoard : Bool)
    (tr : TraceM) (segs : List SegM) (tr2 : TraceM) (segs2 : List SegM)
    (amc2 : AMCM)
    (h : TraceCondemnRefSet amc canAllocBoard tr segs RefSetUNIV
        = some (.OK, tr2, segs2, amc2))
    (hwf : ∀ s ∈ segs, s.refset < 2 ^ wordWidth) :
    ∀ s ∈ segs2, s.attrGC = true →
      TraceSetIsMember s.white tr.ti = true ∨ amcWhitenSkips canAllocBoard s := by
  unfold TraceCondemnRefSet at h
  split at h
  · exact absurd h (by simp)
  · split at h
    · exact absurd h (by simp)
    · rw [if_neg (by unfold RefSetUNIV RefSetEMPTY wordWidth; norm_num)] at h
      cases hloop : condemnLoop amc canAllocBoard tr RefSetUNIV segs with
      | none => rw [hloop] at h; exact absurd h (by simp)
      | some out =>
          obtain ⟨r, tr1, segs1, amc1⟩ := out
          rw [hloop] at h
          replace h : (if r = .OK ∧ ¬ RefSetSuper RefSetUNIV tr1.white then none
              else some (r, tr1, segs1, amc1)) = some (.OK, tr2, segs2, amc2) := h
          split at h
          · exact absurd h (by simp)
          · simp only [Option.some.injEq, Prod.mk.injEq] at h
            obtain ⟨hr, htr, hsegs, _⟩ := h
            intro s hs hgc
            refine condemnLoop_white_or_skipped canAllocBoard RefSetUNIV segs
              amc tr r tr1 segs1 amc1 hloop ?_ hr s (by rw [hsegs]; exact hs) hgc
            intro x hx _
            exact refSetSuper_univ x.refset (hwf x hx)

/-- With an empty white approximation the TraceStart segment loop greys
nothing and leaves the segments unchanged. -/
theorem traceStartSegs_empty_white (ti : TraceId) :
    ∀ segs : List SegM, (∀ s ∈ segs, TraceSetIsMember s.grey ti = false) →
      traceStartSegs ti RefSetEMPTY segs = some (segs, 0) := by
  intro segs
  induction segs with
  | nil => intro _; rfl
  | cons seg rest ih =>
      intro hgrey
      unfold traceStartSegs
      rw [if_neg (by simp [hgrey seg (List.mem_cons_self _ _)])]
      have hint : RefSetInter seg.summary RefSetEMPTY = RefSetEMPTY := by
        unfold RefSetInter RefSetEMPTY
        simp
      rw [ih fun s hs => hgrey s (List.mem_cons_of_mem _ hs)]
      simp [hint, hgrey seg (List.mem_cons_self _ _)]

/-- Claim C7 (amended): condemning with the empty RefSet violates the
assertion that the condemned set is non-empty; and for a trace in
state INIT whose white approximation is empty, TraceStart greys no
segment and leaves the trace FLIPPED (not RECLAIM) with the work clock
untouched, so that the first subsequent TraceStep advances it to
RECLAIM with no segment scanned. -/
theorem traceStart_empty_white_reclaim (amc : AMCM) (canAllocBoard : Bool)
    (tr : TraceM) (segs : List SegM) (sS nP : Nat) (aOK : Bool)
    (hstate : tr.state = .INIT) (hwhite : tr.white = RefSetEMPTY)
    (hgrey : ∀ s ∈ segs, TraceSetIsMember s.grey tr.ti = false) :
    TraceCondemnRefSet amc canAllocBoard tr segs RefSetEMPTY = none
      ∧ greysOfSegs tr.ti segs = []
      ∧ ∃ tr', TraceStart tr segs sS nP = some (tr', segs)
          ∧ tr'.state = .FLIPPED
          ∧ tr'.segScanSize = tr.segScanSize
          ∧ 1 ≤ tr'.rate
          ∧ TraceStep { tr := tr', greys := greysOfSegs tr.ti segs, allocOK := aOK }
              = (.OK, { tr := { tr' with state := .RECLAIM },
                        greys := greysOfSegs tr.ti segs, allocOK := aOK }) := by
  have hgreys : greysOfSegs tr.ti segs = [] := by
    unfold greysOfSegs
    rw [List.filter_eq_nil.mpr (by intro s hs; simp [hgrey s hs])]
    rfl
  refine ⟨?_, hgreys, ?_⟩
  · unfold TraceCondemnRefSet
    rw [if_neg (by simp [hstate]), if_neg (by simp [hwhite]), if_pos rfl]
  · refine ⟨{ tr with
              foundation := 0,
              rate := (0 + sS) / max nP 1 + 1,
              state := .FLIPPED }, ?_, rfl, rfl, Nat.le_add_left 1 _, ?_⟩
    · unfold TraceStart
      rw [if_neg (by simp [hstate]), hwhite,
        traceStartSegs_empty_white tr.ti segs hgrey]
      rfl
    · rw [hgreys]
      rfl

/-- Counterexample to Claim C7 as stated: condemning with the empty
RefSet fails the assertion rather than returning, and TraceStart on a
trace with an empty white set leaves the trace FLIPPED, not
RECLAIM. -/
theorem condemnEmpty_cex :
    TraceCondemnRefSet exAmc true exTraceInit [] RefSetEMPTY = none
      ∧ TraceStart exTraceInit [] 0 1 = some (exTraceStarted, [])
      ∧ exTraceStarted.state ≠ .RECLAIM :=
  ⟨rfl, rfl, by decide⟩

/-- Witness for Claim C7 (amended) at the concrete empty arena. -/
theorem traceStart_empty_white_reclaim_witness :
    (exTraceInit.state = .INIT ∧ exTraceInit.white = RefSetEMPTY)
    ∧ (TraceCondemnRefSet exAmc true exTraceInit [] RefSetEMPTY = none
      ∧ greysOfSegs exTraceInit.ti [] = []
      ∧ ∃ tr', TraceStart exTraceInit [] 0 1 = some (tr', [])
          ∧ tr'.state = .FLIPPED
          ∧ tr'.segScanSize = exTraceInit.segScanSize
          ∧ 1 ≤ tr'.rate
          ∧ TraceStep { tr := tr', greys := greysOfSegs exTraceInit.ti [],
                        allocOK := true }
              = (.OK, { tr := { tr' with state := .RECLAIM },
                        greys := greysOfSegs exTraceInit.ti [],
                        allocOK := true })) :=
  ⟨⟨rfl, rfl⟩,
   traceStart_empty_white_reclaim exAmc true exTraceInit [] 0 1 true rfl rfl
     (by simp)⟩

/-- Counterexample to Claim C6 as stated: condemning with the
universal RefSet returns OK on an arena whose only collectable segment
has a mutator buffer spanning its whole used portion, yet that segment
does not get the trace id in its white set. -/
theorem condemnUniv_not_all_white_cex :
    TraceCondemnRefSet exAmc true exTraceInit [exSegBufferSpans] RefSetUNIV
        = some (.OK, exTraceInit, [exSegBufferSpans], exAmc)
      ∧ exSegBufferSpans.attrGC = true
      ∧ TraceSetIsMember exSegBufferSpans.white exTraceInit.ti = false := by
  refine ⟨?_, rfl, by decide⟩
  decide

/-- Witness for Claim C6 (amended) at the concrete one-segment arena:
the condemnation returns OK and the segment is skipped. -/
theorem condemnUniv_white_or_skipped_witness :
    (TraceCondemnRefSet exAmc true exTraceInit [exSegBufferSpans] RefSetUNIV
        = some (.OK, exTraceInit, [exSegBufferSpans], exAmc)
      ∧ exSegBufferSpans.refset < 2 ^ wordWidth)
    ∧ (exSegBufferSpans.attrGC = true →
        TraceSetIsMember exSegBufferSpans.white exTraceInit.ti = true
          ∨ amcWhitenSkips true exSegBufferSpans) :=
  ⟨⟨by decide, by decide⟩,
   condemnUniv_white_or_skipped exAmc true exTraceInit [exSegBufferSpans]
     exTraceInit [exSegBufferSpans] exAmc (by decide)
     (by intro s hs; simp at hs; rw [hs]; decide)
     exSegBufferSpans (List.mem_singleton.mpr rfl)⟩

/-- When the object layout tiles the walked range, the reclaim walk
completes (no assertion fires and the iteration bound suffices). -/
theorem amcSegReclaimWalkGo_isSome (amc : AMCM) (fmt : FormatM)
    (board : Option NailboardM) :
    ∀ (fuel p limit padBase padLength count size : Nat)
      (pads : List (Nat × Nat)),
      amcSegTilesGo fmt fuel p limit = true →
      (amcSegReclaimWalkGo amc fmt board fuel p limit padBase padLength
          count size pads).isSome = true := by
  intro fuel
  induction fuel with
  | zero =>
      intro p limit padBase padLength count size pads ht
      unfold amcSegTilesGo at ht
      simp only [Bool.and_eq_true, Bool.not_eq_true', decide_eq_false_iff_not,
        decide_eq_true_eq] at ht
      unfold amcSegReclaimWalkGo
      rw [if_neg ht.1, if_pos ht.2]
      rfl
  | succ fuel ih =>
      intro p limit padBase padLength count size pads ht
      unfold amcSegTilesGo at ht
      unfold amcSegReclaimWalkGo
      by_cases hpl : p < limit
      · rw [if_pos hpl] at ht ⊢
        by_cases hpq : p < fmt.skip (p + fmt.headerSize) - fmt.headerSize
        · rw [if_pos hpq] at ht ⊢
          dsimp only
          split
          · exact ih _ _ _ _ _ _ _ ht
          · exact ih _ _ _ _ _ _ _ ht
        · rw [if_neg hpq] at ht
          exact absurd ht (by simp)
      · rw [if_neg hpl] at ht ⊢
        rw [if_pos (by simpa using ht)]
        rfl

/-- A segment surviving amcSegReclaim is no longer white for the
reclaimed trace. -/
theorem amcSegReclaim_unwhitens (amc : AMCM) (fmt : FormatM) (ti : TraceId)
    (seg : SegM) (amc1 : AMCM) (seg1 : SegM)
    (h : amcSegReclaim amc fmt ti seg = some (amc1, some seg1)) :
    TraceSetIsMember seg1.white ti = false := by
  unfold amcSegReclaim at h
  split at h
  · cases hn : amcSegReclaimNailed (amcRampReclaimed amc) fmt ti seg with
    | none => rw [hn] at h; exact absurd h (by simp)
    | some r =>
        rw [hn] at h
        simp only [Option.some.injEq, Prod.mk.injEq] at h
        unfold amcSegReclaimNailed at hn
        cases hw : amcSegReclaimWalk (amcRampReclaimed amc) fmt seg.board
            seg.base (SegBufferScanLimit seg) seg.base 0 0 0 [] with
        | none => rw [hw] at hn; exact absurd hn (by simp)
        | some out =>
            rw [hw] at hn
            obtain ⟨count, rest⟩ := out
            simp only at hn
            split at hn
            · simp only [Option.some.injEq] at hn
              rw [← hn] at h
              exact absurd h.2 (by simp)
            · simp only [Option.some.injEq] at hn
              rw [← hn] at h
              have h2 := h.2
              simp only [Option.some.injEq] at h2
              rw [← h2]
              exact traceSetDel_not_member _ _
  · split at h
    · exact absurd h (by simp)
    · simp only [Option.some.injEq, Prod.mk.injEq] at h
      exact absurd h.2 (by simp)

/-- amcSegReclaim succeeds on a segment whose layout tiles (when
nailed) or which carries no buffer (when not nailed). -/
theorem amcSegReclaim_isSome (amc : AMCM) (fmt : FormatM) (ti : TraceId)
    (seg : SegM)
    (hn : seg.nailed ≠ 0 →
      amcSegTiles fmt seg.base (SegBufferScanLimit seg) = true)
    (hb : seg.nailed = 0 → seg.buffer = none) :
    (amcSegReclaim amc fmt ti seg).isSome = true := by
  unfold amcSegReclaim
  by_cases hnz : seg.nailed ≠ 0
  · rw [if_pos hnz]
    have hwalk := amcSegReclaimWalkGo_isSome (amcRampReclaimed amc) fmt
      seg.board ((SegBufferScanLimit seg) - seg.base) seg.base
      (SegBufferScanLimit seg) seg.base 0 0 0 [] (hn hnz)
    unfold amcSegReclaimNailed amcSegReclaimWalk
    cases hw : amcSegReclaimWalkGo (amcRampReclaimed amc) fmt seg.board
        ((SegBufferScanLimit seg) - seg.base) seg.base (SegBufferScanLimit seg)
        seg.base 0 0 0 [] with
    | none => rw [hw] at hwalk; exact absurd hwalk (by simp)
    | some out =>
        obtain ⟨count, rest⟩ := out
        simp only
        split
        · rename_i heq
          split at heq <;> simp at heq
        · rfl
  · push_neg at hnz
    rw [if_neg (by simpa using hnz)]
    rw [if_neg (by simp [hb hnz])]
    rfl

/-- Through the reclaim loop every white segment is reclaimed and no
segment of the output is white for the trace. -/
theorem traceReclaimLoop_props (fmt : FormatM) (ti : TraceId) :
    ∀ (segs : List SegM) (amc : AMCM),
      (∀ s ∈ segs, TraceSetIsMember s.grey ti = false
        ∧ (TraceSetIsMember s.white ti = true →
            s.attrGC = true
            ∧ (s.nailed ≠ 0 →
                amcSegTiles fmt s.base (SegBufferScanLimit s) = true)
            ∧ (s.nailed = 0 → s.buffer = none))) →
      ∃ amc1 segs1, traceReclaimLoop amc fmt ti segs = some (amc1, segs1)
        ∧ ∀ s ∈ segs1, TraceSetIsMember s.white ti = false := by
  intro segs
  induction segs with
  | nil =>
      intro amc _
      exact ⟨amc, [], rfl, by simp⟩
  | cons seg rest ih =>
      intro amc hseg
      have hhead := hseg seg (List.mem_cons_self _ _)
      have htail : ∀ s ∈ rest, TraceSetIsMember s.grey ti = false
          ∧ (TraceSetIsMember s.white ti = true →
              s.attrGC = true
              ∧ (s.nailed ≠ 0 →
                  amcSegTiles fmt s.base (SegBufferScanLimit s) = true)
              ∧ (s.nailed = 0 → s.buffer = none)) :=
        fun s hs => hseg s (List.mem_cons_of_mem _ hs)
      unfold traceReclaimLoop
      rw [if_neg (by simp [hhead.1])]
      by_cases hwh : TraceSetIsMember seg.white ti = true
      · rw [if_pos hwh]
        obtain ⟨hgc, htiles, hbuf⟩ := hhead.2 hwh
        rw [if_neg (by simp [hgc])]
        have hsome := amcSegReclaim_isSome amc fmt ti seg htiles hbuf
        cases hrec : amcSegReclaim amc fmt ti seg with
        | none => rw [hrec] at hsome; exact absurd hsome (by simp)
        | some out =>
            obtain ⟨amc1, segOpt⟩ := out
            cases segOpt with
            | some seg1 =>
                have hnw := amcSegReclaim_unwhitens amc fmt ti seg amc1 seg1 hrec
                obtain ⟨amc2, rest2, hloop, hall⟩ := ih amc1 htail
                refine ⟨amc2, seg1 :: rest2, ?_, ?_⟩
                · simp only
                  rw [if_neg (by simp [hnw]), hloop]
                · intro s hs
                  rcases List.mem_cons.mp hs with hs1 | hs1
                  · rw [hs1]; exact hnw
                  · exact hall s hs1
            | none =>
                obtain ⟨amc2, rest2, hloop, hall⟩ := ih amc1 htail
                refine ⟨amc2, rest2, ?_, hall⟩
                simp only
                exact hloop
      · rw [if_neg hwh]
        obtain ⟨amc2, rest2, hloop, hall⟩ := ih amc htail
        refine ⟨amc2, seg :: rest2, ?_, ?_⟩
        · rw [hloop]
        · intro s hs
          rcases List.mem_cons.mp hs with hs1 | hs1
          · rw [hs1]; simpa using hwh
          · exact hall s hs1

/-- Claim C2: for a trace in state RECLAIM (with the invariants the
source asserts: nothing is grey for it, its white segments come from
GC pools, nailed white segments have a well-formed object layout and
unnailed white segments are unbuffered), TraceReclaim reports no
error, finishes with the trace in state FINISHED, and leaves no
segment carrying the trace in its white set; moreover amcSegReclaim
removes the trace from the white set of every segment it returns. -/
theorem traceReclaim_finishes_unwhitens (amc : AMCM) (fmt : FormatM)
    (tr : TraceM) (segs : List SegM)
    (hstate : tr.state = .RECLAIM)
    (hseg : ∀ s ∈ segs, TraceSetIsMember s.grey tr.ti = false
      ∧ (TraceSetIsMember s.white tr.ti = true →
          s.attrGC = true
          ∧ (s.nailed ≠ 0 →
              amcSegTiles fmt s.base (SegBufferScanLimit s) = true)
          ∧ (s.nailed = 0 → s.buffer = none))) :
    (∃ tr1 amc1 segs1, TraceReclaim amc fmt tr segs = some (tr1, amc1, segs1)
        ∧ tr1.state = .FINISHED
        ∧ ∀ s ∈ segs1, TraceSetIsMember s.white tr.ti = false)
      ∧ (∀ (amc2 : AMCM) (seg : SegM) (amc3 : AMCM) (seg1 : SegM),
          amcSegReclaim amc2 fmt tr.ti seg = some (amc3, some seg1) →
          TraceSetIsMember seg1.white tr.ti = false) := by
  constructor
  · obtain ⟨amc1, segs1, hloop, hall⟩ := traceReclaimLoop_props fmt tr.ti segs amc hseg
    refine ⟨{ tr with state := .FINISHED }, amc1, segs1, ?_, rfl, hall⟩
    unfold TraceReclaim
    rw [if_neg (by simp [hstate]), hloop]
  · intro amc2 seg amc3 seg1 h
    exact amcSegReclaim_unwhitens amc2 fmt tr.ti seg amc3 seg1 h

/-- Witness for Claim C2 at a concrete arena with one nailed white
segment and one plain white segment. -/
theorem traceReclaim_finishes_unwhitens_witness :
    (exTraceReclaim.state = .RECLAIM
      ∧ ∀ s ∈ [exSegNailed, exSegWhite],
          TraceSetIsMember s.grey exTraceReclaim.ti = false
          ∧ (TraceSetIsMember s.white exTraceReclaim.ti = true →
              s.attrGC = true
              ∧ (s.nailed ≠ 0 →
                  amcSegTiles exFmt s.base (SegBufferScanLimit s) = true)
              ∧ (s.nailed = 0 → s.buffer = none)))
    ∧ ((∃ tr1 amc1 segs1,
          TraceReclaim exAmc exFmt exTraceReclaim [exSegNailed, exSegWhite]
            = some (tr1, amc1, segs1)
          ∧ tr1.state = .FINISHED
          ∧ ∀ s ∈ segs1, TraceSetIsMember s.white exTraceReclaim.ti = false)
        ∧ (∀ (amc2 : AMCM) (seg : SegM) (amc3 : AMCM) (seg1 : SegM),
            amcSegReclaim amc2 exFmt exTraceReclaim.ti seg
              = some (amc3, some seg1) →
            TraceSetIsMember seg1.white exTraceReclaim.ti = false)) :=
  ⟨⟨rfl, by decide⟩,
   traceReclaim_finishes_unwhitens exAmc exFmt exTraceReclaim
     [exSegNailed, exSegWhite] rfl (by decide)⟩

/-- Rounding a size up to arena grains yields the next multiple of the
grain: a multiple of the grain, at least the size, and less than the
size plus a grain. -/
theorem sizeArenaGrains_spec (size grain : Nat) (hg : 0 < grain) :
    grain ∣ SizeArenaGrains size grain
      ∧ size ≤ SizeArenaGrains size grain
      ∧ SizeArenaGrains size grain < size + grain := by
  unfold SizeArenaGrains
  refine ⟨⟨(size + grain - 1) / grain, Nat.mul_comm _ _⟩, ?_, ?_⟩
  · have hmod := Nat.div_add_mod (size + grain - 1) grain
    have hlt : (size + grain - 1) % grain < grain := Nat.mod_lt _ hg
    set q := (size + grain - 1) / grain with hq
    set m := (size + grain - 1) % grain with hm
    have : grain * q = q * grain := Nat.mul_comm _ _
    omega
  · have hmod := Nat.div_add_mod (size + grain - 1) grain
    have hlt : (size + grain - 1) % grain < grain := Nat.mod_lt _ hg
    set q := (size + grain - 1) / grain with hq
    set m := (size + grain - 1) % grain with hm
    have : grain * q = q * grain := Nat.mul_comm _ _
    omega

/-- Claim C9: a buffer fill of at least the pool largeSize hands the
buffer exactly the requested bytes of a fresh segment whose size is
the request rounded up to whole arena grains, padding the slack up to
the segment limit; a smaller request hands the buffer the whole
segment. -/
theorem amcBufferFill_large_exact (amc : AMCM) (grain newBase genIdx : Nat)
    (isRampForward forHashArrays : Bool) (size : Nat) (out : FillOut)
    (hg : 0 < grain) (hle : amc.extendBy ≤ amc.largeSize)
    (h : AMCBufferFill amc grain newBase true genIdx isRampForward
        forHashArrays size = some out) :
    (amc.largeSize ≤ size →
        out.limit = out.base + size
        ∧ out.segSize = SizeArenaGrains size grain
        ∧ grain ∣ out.segSize
        ∧ size ≤ out.segSize
        ∧ out.segSize < size + grain
        ∧ (out.segSize = size → out.padded = none)
        ∧ (size < out.segSize →
            out.padded = some (out.base + size, out.segSize - size)))
      ∧ (size < amc.largeSize →
          out.limit = out.base + out.segSize ∧ out.padded = none) := by
  unfold AMCBufferFill at h
  split at h
  · exact absurd h (by simp)
  · rw [if_neg (by simp)] at h
    constructor
    · intro hls
      rw [if_neg (by omega), if_neg (by omega)] at h
      simp only [Option.some.injEq] at h
      obtain ⟨hgr, hge, hlt⟩ := sizeArenaGrains_spec size grain hg
      subst h
      refine ⟨rfl, rfl, hgr, hge, hlt, ?_, ?_⟩
      · intro heq
        simp only at heq ⊢
        rw [if_neg (by omega)]
      · intro hless
        simp only at hless ⊢
        rw [if_pos (by omega)]
    · intro hls
      rw [if_pos hls] at h
      simp only [Option.some.injEq] at h
      subst h
      exact ⟨rfl, rfl⟩

/-- Witness for Claim C9 at a 72-byte request against a 16-grain
arena with largeSize 64. -/
theorem amcBufferFill_large_exact_witness :
    (0 < 16 ∧ exAmc.extendBy ≤ exAmc.largeSize
      ∧ AMCBufferFill exAmc 16 1000 true 0 false false 72
          = some { base := 1000, limit := 1072, segSize := 80,
                   padded := some (1072, 8), deferredSet := false })
    ∧ ((exAmc.largeSize ≤ 72 →
        (1072 : Nat) = 1000 + 72
        ∧ (80 : Nat) = SizeArenaGrains 72 16
        ∧ (16 : Nat) ∣ 80
        ∧ (72 : Nat) ≤ 80
        ∧ (80 : Nat) < 72 + 16
        ∧ ((80 : Nat) = 72 → some ((1072 : Nat), (8 : Nat)) = none)
        ∧ ((72 : Nat) < 80 →
            some ((1072 : Nat), (8 : Nat)) = some (1000 + 72, 80 - 72)))
      ∧ (72 < exAmc.largeSize →
          (1072 : Nat) = 1000 + 80 ∧ some ((1072 : Nat), (8 : Nat)) = none)) :=
  ⟨⟨by decide, by decide, by decide⟩,
   amcBufferFill_large_exact exAmc 16 1000 0 false false 72
     { base := 1000, limit := 1072, segSize := 80,
       padded := some (1072, 8), deferredSet := false }
     (by decide) (by decide) (by decide)⟩

/-- The ramp transition taken during whitening preserves the ramp
invariant. -/
theorem rampInv_whitened (amc : AMCM) (genIdx : Nat) (h : RampInv amc) :
    RampInv (amcRampWhitened amc genIdx) := by
  unfold amcRampWhitened
  split
  · rename_i hc
    exact ⟨by simp, fun _ => h.2 (Or.inl hc.1)⟩
  · split
    · exact ⟨by simp, by simp⟩
    · exact h

/-- The ramp transition taken during reclaim preserves the ramp
invariant. -/
theorem rampInv_reclaimed (amc : AMCM) (h : RampInv amc) :
    RampInv (amcRampReclaimed amc) := by
  unfold amcRampReclaimed
  split
  · split
    · rename_i hpos
      refine ⟨by simp, fun _ => ?_⟩
      show amc.rampCount ≠ 0
      omega
    · rename_i hpos
      refine ⟨fun _ => ?_, by simp⟩
      show amc.rampCount = 0
      omega
  · exact h

/-- A successful amcSegReclaim returns the pool after the reclaim ramp
transition. -/
theorem amcSegReclaim_amc (amc : AMCM) (fmt : FormatM) (ti : TraceId)
    (seg : SegM) (amc1 : AMCM) (r : Option SegM)
    (h : amcSegReclaim amc fmt ti seg = some (amc1, r)) :
    amc1 = amcRampReclaimed amc := by
  unfold amcSegReclaim at h
  split at h
  · cases hn : amcSegReclaimNailed (amcRampReclaimed amc) fmt ti seg with
    | none => rw [hn] at h; exact absurd h (by simp)
    | some r2 =>
        rw [hn] at h
        simp only [Option.some.injEq, Prod.mk.injEq] at h
        exact h.1.symm
  · split at h
    · exact absurd h (by simp)
    · simp only [Option.some.injEq, Prod.mk.injEq] at h
      exact h.1.symm

/-- amcSegWhiten returns the pool after the whiten ramp transition, or
untouched when it skips. -/
theorem amcSegWhiten_amc (amc : AMCM) (canAllocBoard : Bool) (seg : SegM)
    (ti : TraceId) :
    (amcSegWhiten amc canAllocBoard seg ti).amc = amc
      ∨ ∃ g, (amcSegWhiten amc canAllocBoard seg ti).amc
          = amcRampWhitened amc g := by
  unfold amcSegWhiten
  repeat' split
  all_goals first
    | exact Or.inl rfl
    | exact Or.inr ⟨_, rfl⟩

/-- Claim C10: the ramp invariant checked by AMCCheck (rampCount is
zero outside a ramp and non-zero in modes BEGIN and RAMPING) is
preserved by AMCRampBegin, by AMCRampEnd (whose entry assertion
requires a positive count), by amcSegWhiten, and by amcSegReclaim. -/
theorem rampInvariant_preserved (amc : AMCM) (segs : List SegM)
    (canAllocBoard : Bool) (seg : SegM) (ti : TraceId) (fmt : FormatM)
    (h : RampInv amc) :
    RampInv (AMCRampBegin amc)
      ∧ (0 < amc.rampCount → RampInv (AMCRampEnd amc segs).1)
      ∧ RampInv (amcSegWhiten amc canAllocBoard seg ti).amc
      ∧ (∀ (amc1 : AMCM) (r : Option SegM),
          amcSegReclaim amc fmt ti seg = some (amc1, r) → RampInv amc1) := by
  refine ⟨?_, ?_, ?_, ?_⟩
  · unfold AMCRampBegin
    split
    · split
      · exact ⟨by simp, by simp⟩
      · rename_i hmode
        simp only [ne_eq, not_not] at hmode
        refine ⟨fun hout => ?_, fun _ => Nat.succ_ne_zero _⟩
        have : amc.rampMode = .OUTSIDE := hout
        rw [hmode] at this
        exact absurd this (by simp)
    · rename_i hcount
      refine ⟨fun hout => ?_, fun _ => Nat.succ_ne_zero _⟩
      have h0 : amc.rampCount = 0 := h.1 hout
      exact absurd (by omega : amc.rampCount + 1 = 1) hcount
  · intro hcount
    unfold AMCRampEnd
    split
    · rename_i hzero
      refine ⟨fun _ => hzero, fun hmode2 => ?_⟩
      exfalso
      cases hm : amc.rampMode <;> rw [show amc.rampMode = _ from hm] at hmode2 <;>
        simp [rampEndMode] at hmode2
    · rename_i hnz
      refine ⟨fun hout => ?_, fun _ => hnz⟩
      have h0 : amc.rampCount = 0 := h.1 hout
      show amc.rampCount - 1 = 0
      omega
  · rcases amcSegWhiten_amc amc canAllocBoard seg ti with heq | ⟨g, heq⟩
    · rw [heq]; exact h
    · rw [heq]; exact rampInv_whitened amc g h
  · intro amc1 r hrec
    rw [amcSegReclaim_amc amc fmt ti seg amc1 r hrec]
    exact rampInv_reclaimed amc h

/-- Witness for Claim C10 at a concrete pool in ramp mode RAMPING with
one nested ramp in progress. -/
theorem rampInvariant_preserved_witness :
    RampInv { exAmc with rampMode := .RAMPING, rampCount := 1 }
    ∧ (RampInv (AMCRampBegin { exAmc with rampMode := .RAMPING, rampCount := 1 })
      ∧ (0 < ({ exAmc with rampMode := .RAMPING, rampCount := 1 } : AMCM).rampCount →
          RampInv (AMCRampEnd { exAmc with rampMode := .RAMPING, rampCount := 1 } []).1)
      ∧ RampInv (amcSegWhiten { exAmc with rampMode := .RAMPING, rampCount := 1 }
          true exSegWhite 0).amc
      ∧ (∀ (amc1 : AMCM) (r : Option SegM),
          amcSegReclaim { exAmc with rampMode := .RAMPING, rampCount := 1 }
            exFmt 0 exSegWhite = some (amc1, r) → RampInv amc1)) :=
  ⟨by decide,
   rampInvariant_preserved { exAmc with rampMode := .RAMPING, rampCount := 1 }
     [] true exSegWhite 0 exFmt (by decide)⟩
